import Mathlib

/-!
Verification development for the RecMar → Shopify inventory bridge
(`src/recmar-sync.mjs` and `src/unnamed/part_000`).

The two source files share a three-tier SKU matcher (exact → manual map →
normalized-unique), a last-write-wins deduplication keyed by inventory item
id, and a chunked GraphQL bulk writer; `src/unnamed/part_000` additionally
runs an activation-recovery pass for "not stocked at the location" row
errors.

The shallow embedding below mirrors those stages:
* JavaScript `Map`s appear as association lists with first-match lookup
  (builders keep keys unique, so this coincides with `Map.get`).
* JavaScript string truthiness is modelled by letting `""` stand for a
  missing value (`undefined`), exactly as the source tests `if (!invId)`.
* Quantities are modelled as integers; the claims under study only move
  quantities around, never compute with them.
* Network responses are an explicit environment: one `CallResult` per bulk
  write call, one `ConnectResp` per activation call.
-/

/-- One character of `s.toUpperCase()` over the ASCII range: source
`normalizeSkuText` in both files. -/
def upChar (c : Char) : Char :=
  if 97 ≤ c.toNat ∧ c.toNat ≤ 122 then Char.ofNat (c.toNat - 32) else c

/-- The regex character class `[A-Z0-9]` of `normalizeSkuText`. -/
def isAZ09 (c : Char) : Bool :=
  (65 ≤ c.toNat && c.toNat ≤ 90) || (48 ≤ c.toNat && c.toNat ≤ 57)

/-- `function normalizeSkuText(s){ return String(s||'').toUpperCase().replace(/[^A-Z0-9]/g,''); }`
(`src/unnamed/part_000` line 41, `src/recmar-sync.mjs` line 37): uppercase,
then drop every character outside `[A-Z0-9]`. -/
def normalizeSkuText (s : String) : String :=
  ⟨(s.data.map upChar).filter isAZ09⟩

/-- `String(x)` applied to a value that is already a string: the identity.
`src/unnamed/part_000` line 239 writes `String(invId)` where
`src/recmar-sync.mjs` line 225 uses `invId` directly. -/
def jsString (s : String) : String := s

/-- `Number(x)` applied to a value that is already a number: the identity
(`qty: Number(qty)` in both files). -/
def jsNumber (q : Int) : Int := q

/-- `Map.get(k)` on a string-valued map, with `""` standing for a missing
key (`undefined`), matching the source's truthiness tests. -/
def lookupStr (m : List (String × String)) (k : String) : String :=
  match m with
  | [] => ""
  | p :: rest => if p.1 = k then p.2 else lookupStr rest k

/-- `normalized.get(nk) || []` on the normalized multi-map. -/
def lookupList (m : List (String × List String)) (k : String) : List String :=
  match m with
  | [] => []
  | p :: rest => if p.1 = k then p.2 else lookupList rest k

/-- One entry of the `candidates` (part_000) / `intersect` (mjs) array:
`{ sku, inventory_item_id, qty }`. -/
structure Candidate where
  sku : String
  inventory_item_id : String
  qty : Int
deriving DecidableEq, Repr

/-- One entry of the `misses` array: `{ sku, mapped_to, reason }`. -/
structure Miss where
  sku : String
  mapped_to : String
  reason : String
deriving DecidableEq, Repr

/-- One entry of the `ambiguous` array:
`{ normalized_key, matches, sample }`.  The source field `matches` is a
reserved word in Lean, hence `matchesCount`. -/
structure Ambig where
  normalized_key : String
  matchesCount : Nat
  sample : String
deriving DecidableEq, Repr

/-- The effect of one iteration of the match loop on the outcome arrays and
the three tier counters: a candidate (with the counter increments the
iteration performs), an ambiguous record, or a miss. -/
inductive RowOutcome where
  | cand (c : Candidate) (dExact dMapped dNormalized : Nat)
  | ambiguous (a : Ambig)
  | missed (m : Miss)
deriving DecidableEq, Repr

/-- The tail of the match-loop body from `if (!invId && mode !== 'exact')`
on (`src/unnamed/part_000` lines 221-239), reached with `invId` still
falsy: `targetSku` is the feed SKU, or the manual-map target if one was
substituted.  `getD 0 ""` is `list[0]`, guarded by `list.length === 1`. -/
def normalizedStage (nm : List (String × List String))
    (skuMap : List (String × String)) (mode feedSku targetSku : String)
    (qty : Int) : RowOutcome :=
  if mode ≠ "exact" then
    let nk := normalizeSkuText targetSku
    let l := lookupList nm nk
    if l.length = 1 then
      RowOutcome.cand ⟨targetSku, jsString (l.getD 0 ""), jsNumber qty⟩ 0 0 1
    else if 1 < l.length then
      RowOutcome.ambiguous ⟨nk, l.length, targetSku⟩
    else
      RowOutcome.missed ⟨feedSku, lookupStr skuMap feedSku, "not_in_shopify"⟩
  else
    RowOutcome.missed ⟨feedSku, lookupStr skuMap feedSku, "not_in_shopify"⟩

/-- One iteration of the match loop of `src/unnamed/part_000` (lines
208-240).  Control flow, in source order: tier 1 `exact.get(feedSku)`;
on failure and `skuMap.size` with a truthy mapping, substitute the mapped
SKU and retry the exact lookup (tier 2); with `invId` still falsy fall
into `normalizedStage`.  A truthy `invId` from tier 1 or tier 2 lands in
the `else if (invId) matchedExact++` branch, so a tier-2 match increments
BOTH `matchedMapped` and `matchedExact` (counter increments are recorded
verbatim). -/
def matchRow (ex : List (String × String)) (nm : List (String × List String))
    (skuMap : List (String × String)) (mode feedSku : String) (qty : Int) :
    RowOutcome :=
  if lookupStr ex feedSku ≠ "" then
    RowOutcome.cand ⟨feedSku, jsString (lookupStr ex feedSku), jsNumber qty⟩ 1 0 0
  else if skuMap ≠ [] ∧ lookupStr skuMap feedSku ≠ "" then
    let mapped := lookupStr skuMap feedSku
    if lookupStr ex mapped ≠ "" then
      RowOutcome.cand ⟨mapped, jsString (lookupStr ex mapped), jsNumber qty⟩ 1 1 0
    else
      normalizedStage nm skuMap mode feedSku mapped qty
  else
    normalizedStage nm skuMap mode feedSku feedSku qty

/-- The accumulating state of the match loop: the three outcome arrays and
the three tier counters. -/
structure MatchState where
  candidates : List Candidate
  misses : List Miss
  ambiguous : List Ambig
  matchedExact : Nat
  matchedMapped : Nat
  matchedNormalized : Nat
deriving DecidableEq, Repr

/-- The whole match loop of `src/unnamed/part_000` (lines 208-240) over the
feed entries in their original order. -/
def matchAll (ex : List (String × String)) (nm : List (String × List String))
    (skuMap : List (String × String)) (mode : String) :
    List (String × Int) → MatchState
  | [] => ⟨[], [], [], 0, 0, 0⟩
  | (sku, qty) :: rest =>
    let s := matchAll ex nm skuMap mode rest
    match matchRow ex nm skuMap mode sku qty with
    | .cand c dE dM dN =>
      ⟨c :: s.candidates, s.misses, s.ambiguous,
        dE + s.matchedExact, dM + s.matchedMapped, dN + s.matchedNormalized⟩
    | .ambiguous a => { s with ambiguous := a :: s.ambiguous }
    | .missed m => { s with misses := m :: s.misses }

/-- `Map.get` on the dedup map `byInv`, with `none` for a missing key. -/
def lookupKV (k : String) : List (String × Candidate) → Option Candidate
  | [] => none
  | p :: rest => if p.1 = k then some p.2 else lookupKV k rest

/-- `Map.set(k, v)` on an insertion-ordered map: an existing key keeps its
position and gets the new value; a fresh key is appended. -/
def mapSet (m : List (String × Candidate)) (k : String) (v : Candidate) :
    List (String × Candidate) :=
  if (lookupKV k m).isSome then
    m.map (fun p => if p.1 = k then (k, v) else p)
  else
    m ++ [(k, v)]

/-- One iteration of `for (const x of candidates) byInv.set(x.inventory_item_id, x)`. -/
def dedupStep (m : List (String × Candidate)) (x : Candidate) :
    List (String × Candidate) :=
  mapSet m x.inventory_item_id x

/-- The dedup map of `src/unnamed/part_000` lines 242-244 (`src/recmar-sync.mjs`
builds no such map; its `work` is `intersect` unchanged). -/
def byInv (cands : List Candidate) : List (String × Candidate) :=
  cands.foldl dedupStep []

/-- `let work = Array.from(byInv.values())` (`src/unnamed/part_000` line 245). -/
def work (cands : List Candidate) : List Candidate :=
  (byInv cands).map Prod.snd

/-- The inventory item ids of a candidate list, in order. -/
def ids (cands : List Candidate) : List String :=
  cands.map fun c => c.inventory_item_id

/-- The keys of the dedup map, in order. -/
def keysOf (m : List (String × Candidate)) : List String :=
  m.map Prod.fst

/-- The last candidate of the list carrying the given inventory item id
(the "later row in original feed order"). -/
def lastWith (id : String) : List Candidate → Option Candidate
  | [] => none
  | x :: rest =>
    match lastWith id rest with
    | some c => some c
    | none => if x.inventory_item_id = id then some x else none

/-- Linear membership test on a list of strings (JS `Set.has` /
`Array.includes` over the insertion-ordered set). -/
def containsStr (l : List String) (a : String) : Bool :=
  match l with
  | [] => false
  | x :: rest => if x = a then true else containsStr rest a

/-- `Set.add` on the insertion-ordered set of flagged inventory item ids. -/
def setAdd (s : List String) (x : String) : List String :=
  if containsStr s x then s else s ++ [x]

/-- One GraphQL `userError`: `message` plus the already-coerced row index
`Number(e.field?.[2] ?? -1)` (an out-of-range or missing index is any
integer outside `[0, chunkLength)`). -/
structure UserError where
  message : String
  idx : Int
deriving DecidableEq, Repr

/-- The outcome of one bulk `inventorySetQuantities` call: the `gql` helper
either throws (call-level failure) or returns the `userErrors` list. -/
inductive CallResult where
  | failure
  | success (userErrors : List UserError)
deriving DecidableEq, Repr

/-- ASCII lowering of one character, used to model the case-insensitive
regex test `/not stocked at the location/i`. -/
def lowChar (c : Char) : Char :=
  if 65 ≤ c.toNat ∧ c.toNat ≤ 90 then Char.ofNat (c.toNat + 32) else c

/-- Is `pat` a prefix of `l`? -/
def listPre : List Char → List Char → Bool
  | [], _ => true
  | _ :: _, [] => false
  | p :: ps, c :: cs => p = c && listPre ps cs

/-- Does `l` contain `pat` as a contiguous substring? -/
def subList (pat : List Char) : List Char → Bool
  | [] => pat.isEmpty
  | c :: rest => listPre pat (c :: rest) || subList pat rest

/-- `/not stocked at the location/i.test(msg)` (`src/unnamed/part_000`
line 285): case-insensitive substring match. -/
def msgMatchesNotStocked (msg : String) : Bool :=
  subList "not stocked at the location".data (msg.data.map lowChar)

/-- `/422/.test(String(res.status))` (`src/unnamed/part_000` line 121): an
unanchored substring test on the decimal status. -/
def statusHas422 (status : Nat) : Bool :=
  subList "422".data (Nat.repr status).data

/-- The response to one `inventory_levels/connect.json` call. -/
structure ConnectResp where
  ok : Bool
  status : Nat
deriving DecidableEq, Repr

/-- `connectInventory` (`src/unnamed/part_000` lines 112-123) returns
normally iff the response is ok or its status contains `422`; otherwise it
throws (and the caller's `catch` only logs). -/
def connectOK (r : ConnectResp) : Bool :=
  r.ok || statusHas422 r.status

/-- One entry of `changedRows`: `{ sku, inventory_item_id, to }`.  The
source field `to` is a reserved word in Lean, hence `toQty`. -/
structure ChangedRow where
  sku : String
  inventory_item_id : String
  toQty : Int
deriving DecidableEq, Repr

/-- `changedRows.push({ sku: x.sku, inventory_item_id: x.inventory_item_id, to: x.qty })`. -/
def toChangedRow (x : Candidate) : ChangedRow :=
  ⟨x.sku, x.inventory_item_id, x.qty⟩

/-- The flagged inventory item ids of one call's `userErrors`, in order and
with repetitions: the ids the loop at `src/unnamed/part_000` lines 282-288
adds to `notStockedSet` (message matches the signature and the row index is
in range). -/
def flaggedOf (chunk : List Candidate) (ue : List UserError) : List String :=
  ue.filterMap fun e =>
    if msgMatchesNotStocked e.message ∧ 0 ≤ e.idx ∧ e.idx < (chunk.length : Int) then
      (chunk.get? e.idx.toNat).map fun x => x.inventory_item_id
    else
      none

/-- The running state of pass 1 (`src/unnamed/part_000` lines 259-301):
`updated`, `errors`, `changedRows` and the `notStockedSet` (as an
insertion-ordered list). -/
structure Pass1State where
  updated : Nat
  errors : Nat
  changedRows : List ChangedRow
  notStocked : List String
deriving DecidableEq, Repr

/-- One iteration of the pass-1 chunk loop (`src/unnamed/part_000` lines
264-301).  A thrown call adds `chunk.length` to `errors`; a returned call
adds the flagged ids to `notStockedSet`, counts `ue.length` errors, and
credits `ok = Math.max(0, chunk.length - ue.length)` updates, recording the
first `ok` rows of the chunk as changed (`chunk.slice(0, ok)`); natural
subtraction is exactly `Math.max(0, ...)`. -/
def processChunk (st : Pass1State) (chunk : List Candidate)
    (res : CallResult) : Pass1State :=
  match res with
  | .failure => { st with errors := st.errors + chunk.length }
  | .success ue =>
    let ok := chunk.length - ue.length
    { updated := st.updated + ok,
      errors := st.errors + ue.length,
      changedRows := st.changedRows ++ (chunk.take ok).map toChangedRow,
      notStocked := (flaggedOf chunk ue).foldl setAdd st.notStocked }

/-- The running state of the retry loop, which collects no new flags. -/
structure WriteState where
  updated : Nat
  errors : Nat
  changedRows : List ChangedRow
deriving DecidableEq, Repr

/-- One iteration of the retry chunk loop (`src/unnamed/part_000` lines
313-342): identical counting and recording, but the `userErrors` are only
counted — the retry never scans them for the not-stocked signature. -/
def processRetryChunk (st : WriteState) (chunk : List Candidate)
    (res : CallResult) : WriteState :=
  match res with
  | .failure => { st with errors := st.errors + chunk.length }
  | .success ue =>
    let ok := chunk.length - ue.length
    { updated := st.updated + ok,
      errors := st.errors + ue.length,
      changedRows := st.changedRows ++ (chunk.take ok).map toChangedRow }

/-- Structural helper for `chunksOf`: the fuel only bounds the number of
loop iterations (each iteration consumes at least one element, so fuel
equal to the list length is never exhausted). -/
def chunksOfAux (b : Nat) : Nat → List Candidate → List (List Candidate)
  | _, [] => []
  | 0, l => [l]
  | fuel + 1, x :: xs => (x :: xs.take (b - 1)) :: chunksOfAux b fuel (xs.drop (b - 1))

/-- `work.slice(i, i+BATCH)` partitioning for `i = 0, BATCH, 2*BATCH, ...`;
the source guarantees `BATCH = Math.max(1, ...) ≥ 1`, for which this agrees
with the loop. -/
def chunksOf (b : Nat) (l : List Candidate) : List (List Candidate) :=
  chunksOfAux b l.length l

/-- Pass 1 of `src/unnamed/part_000` (lines 259-301): one bulk call per
chunk, responses supplied by the environment `env` indexed by call number. -/
def runPass1 (env : Nat → CallResult) (batch : Nat)
    (ws : List Candidate) : Pass1State :=
  ((chunksOf batch ws).enum).foldl
    (fun st p => processChunk st p.2 (env p.1)) ⟨0, 0, [], []⟩

/-- `const retry = work.filter(x => notStockedSet.has(x.inventory_item_id))`
(`src/unnamed/part_000` line 312): the retry list depends only on the
flagged set, not on the activation outcomes. -/
def retryOf (ws : List Candidate) (ns : List String) : List Candidate :=
  ws.filter fun x => containsStr ns x.inventory_item_id

/-- The retry chunk loop (`src/unnamed/part_000` lines 313-342), its calls
numbered after the `off` calls of pass 1. -/
def runRetry (env : Nat → CallResult) (off batch : Nat)
    (retry : List Candidate) (st : WriteState) : WriteState :=
  ((chunksOf batch retry).enum).foldl
    (fun s p => processRetryChunk s p.2 (env (off + p.1))) st

/-- Observable outcome of the whole write phase: final counters, the
changed rows, the activation calls issued (in order), the retry scope, and
how many recovery passes ran. -/
structure RunResult where
  updated : Nat
  errors : Nat
  changedRows : List ChangedRow
  activationCalls : List String
  retryItems : List Candidate
  recoveryPasses : Nat
deriving DecidableEq, Repr

/-- The whole write phase of `src/unnamed/part_000` (lines 259-343): pass 1,
then — only if `notStockedSet.size` — one activation loop (one
`connectInventory` call per element of the set, outcomes logged and
discarded) followed by one retry restricted to the flagged work items.
The structure is straight-line: there is no second recovery pass. -/
def runAll (env : Nat → CallResult) (batch : Nat)
    (ws : List Candidate) : RunResult :=
  let p1 := runPass1 env batch ws
  if p1.notStocked.isEmpty then
    ⟨p1.updated, p1.errors, p1.changedRows, [], [], 0⟩
  else
    let retry := retryOf ws p1.notStocked
    let p2 := runRetry env ((chunksOf batch ws).length) batch retry
      ⟨p1.updated, p1.errors, p1.changedRows⟩
    ⟨p2.updated, p2.errors, p2.changedRows, p1.notStocked, retry, 1⟩

/-- The flagged ids contributed by one call. -/
def flaggedOfCall (chunk : List Candidate) (res : CallResult) : List String :=
  match res with
  | .failure => []
  | .success ue => flaggedOf chunk ue

/-- Every flagged id occurrence of pass 1, in scan order and with
repetitions. -/
def flaggedOccurrences (env : Nat → CallResult) (batch : Nat)
    (ws : List Candidate) : List String :=
  (((chunksOf batch ws).enum).map fun p => flaggedOfCall p.2 (env p.1)).flatten

/-- `normalizedStage` as written in `src/recmar-sync.mjs` (lines 207-225):
identical text, without the `String(...)` wrapper at the push. -/
def normalizedStageMjs (nm : List (String × List String))
    (skuMap : List (String × String)) (mode feedSku targetSku : String)
    (qty : Int) : RowOutcome :=
  if mode ≠ "exact" then
    let nk := normalizeSkuText targetSku
    let l := lookupList nm nk
    if l.length = 1 then
      RowOutcome.cand ⟨targetSku, l.getD 0 "", jsNumber qty⟩ 0 0 1
    else if 1 < l.length then
      RowOutcome.ambiguous ⟨nk, l.length, targetSku⟩
    else
      RowOutcome.missed ⟨feedSku, lookupStr skuMap feedSku, "not_in_shopify"⟩
  else
    RowOutcome.missed ⟨feedSku, lookupStr skuMap feedSku, "not_in_shopify"⟩

/-- One iteration of the match loop of `src/recmar-sync.mjs` (lines
194-226); differs from `matchRow` only in pushing `invId` rather than
`String(invId)`. -/
def matchRowMjs (ex : List (String × String)) (nm : List (String × List String))
    (skuMap : List (String × String)) (mode feedSku : String) (qty : Int) :
    RowOutcome :=
  if lookupStr ex feedSku ≠ "" then
    RowOutcome.cand ⟨feedSku, lookupStr ex feedSku, jsNumber qty⟩ 1 0 0
  else if skuMap ≠ [] ∧ lookupStr skuMap feedSku ≠ "" then
    let mapped := lookupStr skuMap feedSku
    if lookupStr ex mapped ≠ "" then
      RowOutcome.cand ⟨mapped, lookupStr ex mapped, jsNumber qty⟩ 1 1 0
    else
      normalizedStageMjs nm skuMap mode feedSku mapped qty
  else
    normalizedStageMjs nm skuMap mode feedSku feedSku qty

/-- The whole match loop of `src/recmar-sync.mjs` (lines 194-226); the
candidate array is named `intersect` there. -/
def matchAllMjs (ex : List (String × String)) (nm : List (String × List String))
    (skuMap : List (String × String)) (mode : String) :
    List (String × Int) → MatchState
  | [] => ⟨[], [], [], 0, 0, 0⟩
  | (sku, qty) :: rest =>
    let s := matchAllMjs ex nm skuMap mode rest
    match matchRowMjs ex nm skuMap mode sku qty with
    | .cand c dE dM dN =>
      ⟨c :: s.candidates, s.misses, s.ambiguous,
        dE + s.matchedExact, dM + s.matchedMapped, dN + s.matchedNormalized⟩
    | .ambiguous a => { s with ambiguous := a :: s.ambiguous }
    | .missed m => { s with misses := m :: s.misses }

/-! ## Normalization (C9) -/

theorem isAZ09_upChar_fix (c : Char) (h : isAZ09 c = true) : upChar c = c := by
  have h' : (65 ≤ c.toNat ∧ c.toNat ≤ 90) ∨ (48 ≤ c.toNat ∧ c.toNat ≤ 57) := by
    simpa [isAZ09, Bool.or_eq_true, Bool.and_eq_true, decide_eq_true_eq] using h
  unfold upChar
  rw [if_neg (by omega)]

theorem norm_chars_fix (l : List Char) (h : ∀ c ∈ l, isAZ09 c = true) :
    (l.map upChar).filter isAZ09 = l := by
  induction l with
  | nil => rfl
  | cons c t ih =>
    have hc := h c (List.mem_cons_self c t)
    have ht := fun x hx => h x (List.mem_cons_of_mem c hx)
    simp [isAZ09_upChar_fix c hc, hc, ih ht]

/-- C9: SKU normalization is idempotent — `normalize(normalize(x)) =
normalize(x)` for every string — and it collapses case and punctuation
variants of the same SKU ("ab-12", "AB12", "Ab_12") to the same key. -/
theorem normalizeSkuText_idempotent_and_collapses :
    (∀ x : String, normalizeSkuText (normalizeSkuText x) = normalizeSkuText x) ∧
    normalizeSkuText "ab-12" = normalizeSkuText "AB12" ∧
    normalizeSkuText "AB12" = normalizeSkuText "Ab_12" := by
  refine ⟨fun x => ?_, by decide, by decide⟩
  simp only [normalizeSkuText]
  exact congrArg String.mk
    (norm_chars_fix _ fun c hc => List.of_mem_filter hc)

/-! ## Outcome partition (C8) -/

/-- C8: for every feed table, catalog index, manual map and mode, each feed
row lands in exactly one of the three outcome buckets, so the sizes of the
candidate, ambiguous and miss lists sum to the number of feed rows. -/
theorem matchAll_outcome_partition (ex : List (String × String))
    (nm : List (String × List String)) (skuMap : List (String × String))
    (mode : String) (feed : List (String × Int)) :
    (matchAll ex nm skuMap mode feed).candidates.length
      + (matchAll ex nm skuMap mode feed).ambiguous.length
      + (matchAll ex nm skuMap mode feed).misses.length = feed.length := by
  induction feed with
  | nil => rfl
  | cons p rest ih =>
    obtain ⟨sku, qty⟩ := p
    simp only [matchAll]
    cases matchRow ex nm skuMap mode sku qty <;> simp <;> omega

/-! ## Tier counters (C2) -/

/-- C2: evidence of the counting slip.  With catalog `NEW → I1`, manual map
`OLD → NEW` and feed `OLD : 3`, the single feed row matches at tier 2
(mapped), yet the summary counters report `matched_exact = 1` as well as
`matched_mapped = 1`: the `else if (invId) matchedExact++` branch fires for
a tier-2 hit too, so the per-tier counts sum to 2 ≠ 1 matched row. -/
theorem matchedExact_double_counts_mapped :
    (matchAll [("NEW", "I1")] [("NEW", ["I1"])] [("OLD", "NEW")] "normalize"
        [("OLD", 3)]).matchedExact = 1 ∧
    (matchAll [("NEW", "I1")] [("NEW", ["I1"])] [("OLD", "NEW")] "normalize"
        [("OLD", 3)]).matchedMapped = 1 ∧
    (matchAll [("NEW", "I1")] [("NEW", ["I1"])] [("OLD", "NEW")] "normalize"
        [("OLD", 3)]).matchedNormalized = 0 ∧
    (matchAll [("NEW", "I1")] [("NEW", ["I1"])] [("OLD", "NEW")] "normalize"
        [("OLD", 3)]).candidates.length = 1 ∧
    (matchAll [("NEW", "I1")] [("NEW", ["I1"])] [("OLD", "NEW")] "normalize"
        [("OLD", 3)]).matchedExact
      + (matchAll [("NEW", "I1")] [("NEW", ["I1"])] [("OLD", "NEW")] "normalize"
        [("OLD", 3)]).matchedMapped
      + (matchAll [("NEW", "I1")] [("NEW", ["I1"])] [("OLD", "NEW")] "normalize"
        [("OLD", 3)]).matchedNormalized
      ≠ (matchAll [("NEW", "I1")] [("NEW", ["I1"])] [("OLD", "NEW")] "normalize"
        [("OLD", 3)]).candidates.length := by
  decide

/-! ## Equivalence of the two match loops (C10) -/

theorem matchRowMjs_eq (ex : List (String × String))
    (nm : List (String × List String)) (skuMap : List (String × String))
    (mode sku : String) (qty : Int) :
    matchRowMjs ex nm skuMap mode sku qty = matchRow ex nm skuMap mode sku qty := rfl

/-- C10: on every feed table, catalog index, manual map and mode, the match
loop of `src/recmar-sync.mjs` and the one of `src/unnamed/part_000` produce
the same candidate, miss and ambiguous lists (and tier counters), element
for element and in the same order. -/
theorem matchLoop_equivalence (ex : List (String × String))
    (nm : List (String × List String)) (skuMap : List (String × String))
    (mode : String) (feed : List (String × Int)) :
    matchAllMjs ex nm skuMap mode feed = matchAll ex nm skuMap mode feed := by
  induction feed with
  | nil => rfl
  | cons p rest ih =>
    obtain ⟨sku, qty⟩ := p
    simp only [matchAll, matchAllMjs, matchRowMjs_eq, ih]

/-! ## Deduplication (C1) -/

theorem lookupKV_isSome_iff (k : String) (m : List (String × Candidate)) :
    (lookupKV k m).isSome = true ↔ k ∈ keysOf m := by
  induction m with
  | nil => simp [lookupKV, keysOf]
  | cons p rest ih =>
    by_cases h : p.1 = k
    · simp [lookupKV, keysOf, h]
    · simp only [lookupKV, if_neg h, keysOf, List.map_cons, List.mem_cons, ih]
      constructor
      · exact Or.inr
      · rintro (rfl | hm)
        · exact absurd rfl h
        · exact hm

theorem lookupKV_eq_none_iff (k : String) (m : List (String × Candidate)) :
    lookupKV k m = none ↔ k ∉ keysOf m := by
  rw [← lookupKV_isSome_iff]
  cases lookupKV k m <;> simp

theorem keysOf_replace (m : List (String × Candidate)) (k : String)
    (v : Candidate) :
    keysOf (m.map fun p => if p.1 = k then (k, v) else p) = keysOf m := by
  induction m with
  | nil => rfl
  | cons p rest ih =>
    by_cases h : p.1 = k <;> simp [keysOf, h] <;>
      simpa [keysOf, h] using ih

theorem mem_keys_mapSet (m : List (String × Candidate)) (k0 k : String)
    (v : Candidate) :
    k ∈ keysOf (mapSet m k0 v) ↔ k ∈ keysOf m ∨ k = k0 := by
  unfold mapSet
  split
  · rename_i h
    rw [keysOf_replace]
    have hk0 : k0 ∈ keysOf m := (lookupKV_isSome_iff k0 m).mp h
    constructor
    · exact Or.inl
    · rintro (hm | rfl)
      · exact hm
      · exact hk0
  · simp [keysOf]

theorem nodup_keys_mapSet (m : List (String × Candidate)) (k0 : String)
    (v : Candidate) (h : (keysOf m).Nodup) : (keysOf (mapSet m k0 v)).Nodup := by
  unfold mapSet
  split
  · rwa [keysOf_replace]
  · rename_i hnone
    have hk0 : k0 ∉ keysOf m := by
      rw [← lookupKV_eq_none_iff]
      cases hx : lookupKV k0 m
      · rfl
      · rw [hx] at hnone; simp at hnone
    have : keysOf (m ++ [(k0, v)]) = keysOf m ++ [k0] := by simp [keysOf]
    rw [this, List.nodup_append]
    exact ⟨h, List.nodup_singleton k0, by
      intro a ha hb
      simp at hb
      subst hb
      exact hk0 ha⟩

theorem lookupKV_append (k : String) (m₁ m₂ : List (String × Candidate)) :
    lookupKV k (m₁ ++ m₂)
      = match lookupKV k m₁ with
        | some v => some v
        | none => lookupKV k m₂ := by
  induction m₁ with
  | nil => simp [lookupKV]
  | cons p rest ih =>
    by_cases h : p.1 = k <;> simp [lookupKV, h, ih]

theorem lookupKV_replace_of_mem (m : List (String × Candidate)) (k : String)
    (v : Candidate) (h : k ∈ keysOf m) :
    lookupKV k (m.map fun p => if p.1 = k then (k, v) else p) = some v := by
  induction m with
  | nil => simp [keysOf] at h
  | cons p rest ih =>
    by_cases hp : p.1 = k
    · simp [lookupKV, hp]
    · have hr : k ∈ keysOf rest := by
        simp only [keysOf, List.map_cons, List.mem_cons] at h
        rcases h with h | h
        · exact absurd h.symm hp
        · exact h
      simp [lookupKV, hp, ih hr]

theorem lookupKV_mapSet_self (m : List (String × Candidate)) (k : String)
    (v : Candidate) : lookupKV k (mapSet m k v) = some v := by
  unfold mapSet
  split
  · rename_i h
    exact lookupKV_replace_of_mem m k v ((lookupKV_isSome_iff k m).mp h)
  · rename_i h
    have hnone : lookupKV k m = none := by
      cases hx : lookupKV k m
      · rfl
      · rw [hx] at h; simp at h
    rw [lookupKV_append, hnone]
    simp [lookupKV]

theorem lookupKV_replace_ne (m : List (String × Candidate)) (k k' : String)
    (v : Candidate) (h : k' ≠ k) :
    lookupKV k' (m.map fun p => if p.1 = k then (k, v) else p)
      = lookupKV k' m := by
  have hk : ¬k = k' := fun hk => h hk.symm
  induction m with
  | nil => rfl
  | cons p rest ih =>
    by_cases hp : p.1 = k
    · have hp' : ¬p.1 = k' := by rw [hp]; exact hk
      simp [lookupKV, hp, hp', hk, ih]
    · by_cases hp' : p.1 = k' <;> simp [lookupKV, hp, hp', hk, h, ih]

theorem lookupKV_mapSet_ne (m : List (String × Candidate)) (k k' : String)
    (v : Candidate) (h : k' ≠ k) :
    lookupKV k' (mapSet m k v) = lookupKV k' m := by
  have hk : ¬k = k' := fun hk => h hk.symm
  unfold mapSet
  split
  · exact lookupKV_replace_ne m k k' v h
  · rw [lookupKV_append]
    cases hx : lookupKV k' m
    · simp [lookupKV, hk]
    · simp

theorem lookupKV_foldl (id : String) (xs : List Candidate) :
    ∀ m : List (String × Candidate),
      lookupKV id (xs.foldl dedupStep m)
        = match lastWith id xs with
          | some c => some c
          | none => lookupKV id m := by
  induction xs with
  | nil => intro m; simp [lastWith]
  | cons x rest ih =>
    intro m
    show lookupKV id (rest.foldl dedupStep (dedupStep m x)) = _
    rw [ih (dedupStep m x)]
    cases hrest : lastWith id rest with
    | some c => simp [lastWith, hrest]
    | none =>
      by_cases hx : x.inventory_item_id = id
      · simp only [lastWith, hrest, if_pos hx, dedupStep]
        rw [hx, lookupKV_mapSet_self]
      · simp only [lastWith, hrest, if_neg hx, dedupStep]
        exact lookupKV_mapSet_ne m x.inventory_item_id id x
          (fun hik => hx hik.symm)

theorem mem_keys_foldl (k : String) (xs : List Candidate) :
    ∀ m : List (String × Candidate),
      k ∈ keysOf (xs.foldl dedupStep m) ↔ k ∈ keysOf m ∨ k ∈ ids xs := by
  induction xs with
  | nil => intro m; simp [ids]
  | cons x rest ih =>
    intro m
    show k ∈ keysOf (rest.foldl dedupStep (dedupStep m x)) ↔ _
    rw [ih (dedupStep m x)]
    unfold dedupStep
    rw [mem_keys_mapSet]
    simp only [ids, List.map_cons, List.mem_cons]
    constructor
    · rintro ((hm | hk) | hr)
      · exact Or.inl hm
      · exact Or.inr (Or.inl hk)
      · exact Or.inr (Or.inr hr)
    · rintro (hm | hk | hr)
      · exact Or.inl (Or.inl hm)
      · exact Or.inl (Or.inr hk)
      · exact Or.inr hr

theorem nodup_keys_foldl (xs : List Candidate) :
    ∀ m : List (String × Candidate),
      (keysOf m).Nodup → (keysOf (xs.foldl dedupStep m)).Nodup := by
  induction xs with
  | nil => intro m hm; exact hm
  | cons x rest ih =>
    intro m hm
    exact ih (dedupStep m x) (nodup_keys_mapSet m x.inventory_item_id x hm)

theorem pairs_mapSet (m : List (String × Candidate)) (k0 : String)
    (v : Candidate) (hm : ∀ p ∈ m, p.2.inventory_item_id = p.1)
    (hv : v.inventory_item_id = k0) :
    ∀ p ∈ mapSet m k0 v, p.2.inventory_item_id = p.1 := by
  unfold mapSet
  split
  · intro p hp
    obtain ⟨q, hq, hqp⟩ := List.mem_map.mp hp
    by_cases hq1 : q.1 = k0
    · rw [← hqp]; simp [hq1, hv]
    · rw [← hqp]; simp [hq1]; exact hm q hq
  · intro p hp
    rcases List.mem_append.mp hp with hp | hp
    · exact hm p hp
    · simp at hp
      rw [hp]
      exact hv

theorem pairs_foldl (xs : List Candidate) :
    ∀ m : List (String × Candidate),
      (∀ p ∈ m, p.2.inventory_item_id = p.1) →
      ∀ p ∈ xs.foldl dedupStep m, p.2.inventory_item_id = p.1 := by
  induction xs with
  | nil => intro m hm; exact hm
  | cons x rest ih =>
    intro m hm
    exact ih (dedupStep m x) (pairs_mapSet m x.inventory_item_id x hm rfl)

theorem lookupKV_of_mem_nodup (m : List (String × Candidate))
    (hm : (keysOf m).Nodup) (k : String) (v : Candidate)
    (hmem : (k, v) ∈ m) : lookupKV k m = some v := by
  induction m with
  | nil => simp at hmem
  | cons p rest ih =>
    have hnd : (keysOf rest).Nodup := by
      simpa [keysOf] using hm.of_cons
    rcases List.mem_cons.mp hmem with hp | hp
    · rw [← hp]
      simp [lookupKV]
    · by_cases h1 : p.1 = k
      · exfalso
        have hk : k ∈ keysOf rest := by
          simp only [keysOf, List.mem_map]
          exact ⟨(k, v), hp, rfl⟩
        have hhead : p.1 ∉ keysOf rest := by
          have := hm
          simp only [keysOf, List.map_cons, List.nodup_cons] at this
          exact this.1
        rw [h1] at hhead
        exact hhead hk
      · simp only [lookupKV, if_neg h1]
        exact ih hnd hp

/-- C1: for every list of matched rows, the deduplicated work list contains
exactly one work item per distinct inventory item id (its length is the
number of distinct ids), and every surviving work item equals the LAST
matched row carrying its id in original feed order (last-write-wins). -/
theorem dedupe_lastWriteWins (cands : List Candidate) :
    (work cands).length = (ids cands).toFinset.card ∧
    ∀ c, c ∈ work cands → lastWith c.inventory_item_id cands = some c := by
  have hnd : (keysOf (byInv cands)).Nodup :=
    nodup_keys_foldl cands [] (by simp [keysOf])
  constructor
  · have hmem : ∀ k, k ∈ keysOf (byInv cands) ↔ k ∈ ids cands := by
      intro k
      have := mem_keys_foldl k cands []
      simpa [keysOf, byInv] using this
    have hfs : (keysOf (byInv cands)).toFinset = (ids cands).toFinset := by
      ext k
      simp [List.mem_toFinset, hmem k]
    calc (work cands).length
        = (keysOf (byInv cands)).length := by simp [work, keysOf]
      _ = (keysOf (byInv cands)).toFinset.card :=
          (List.toFinset_card_of_nodup hnd).symm
      _ = (ids cands).toFinset.card := by rw [hfs]
  · intro c hc
    obtain ⟨p, hp, hpc⟩ := List.mem_map.mp hc
    have hid : c.inventory_item_id = p.1 := by
      rw [← hpc]
      exact pairs_foldl cands [] (by simp) p hp
    have hpair : (p.1, c) ∈ byInv cands := by
      have : p = (p.1, c) := by
        rw [← hpc]
      rw [← this]
      exact hp
    have hl : lookupKV c.inventory_item_id (byInv cands) = some c := by
      rw [hid]
      exact lookupKV_of_mem_nodup (byInv cands) hnd p.1 c hpair
    have hfold := lookupKV_foldl c.inventory_item_id cands []
    unfold byInv at hl
    rw [hl] at hfold
    cases hlast : lastWith c.inventory_item_id cands with
    | none => rw [hlast] at hfold; simp [lookupKV] at hfold
    | some c' => rw [hlast] at hfold; simpa using hfold.symm

/-- C1 witness: two matched rows sharing item id `I1`; the work list keeps
one item, carrying the later row. -/
theorem dedupe_lastWriteWins_witness :
    (work [⟨"A", "I1", 1⟩, ⟨"B", "I1", 2⟩]).length
      = (ids [⟨"A", "I1", 1⟩, ⟨"B", "I1", 2⟩]).toFinset.card ∧
    lastWith "I1" [⟨"A", "I1", 1⟩, ⟨"B", "I1", 2⟩] = some ⟨"B", "I1", 2⟩ :=
  ⟨(dedupe_lastWriteWins [⟨"A", "I1", 1⟩, ⟨"B", "I1", 2⟩]).1,
   (dedupe_lastWriteWins [⟨"A", "I1", 1⟩, ⟨"B", "I1", 2⟩]).2
     ⟨"B", "I1", 2⟩ (by decide)⟩

/-! ## Bulk writer row-error accounting (C5, C4) -/

/-- C5: a bulk call that succeeds at call level over a chunk of `n` work
items and returns `k` row errors contributes `n - k` (natural subtraction,
i.e. `Math.max(0, n - k)`) to the updated count and `k` to the error count;
in particular a chunk of 5 items with one error at index 2 yields
`updated = 4`, `errored = 1`. -/
theorem chunk_row_error_counts :
    (∀ (st : Pass1State) (chunk : List Candidate) (ue : List UserError),
        (processChunk st chunk (.success ue)).updated
          = st.updated + (chunk.length - ue.length) ∧
        (processChunk st chunk (.success ue)).errors
          = st.errors + ue.length) ∧
    (processChunk ⟨0, 0, [], []⟩
        [⟨"S1", "I1", 1⟩, ⟨"S2", "I2", 2⟩, ⟨"S3", "I3", 3⟩,
          ⟨"S4", "I4", 4⟩, ⟨"S5", "I5", 5⟩]
        (.success [⟨"cannot set quantity", 2⟩])).updated = 4 ∧
    (processChunk ⟨0, 0, [], []⟩
        [⟨"S1", "I1", 1⟩, ⟨"S2", "I2", 2⟩, ⟨"S3", "I3", 3⟩,
          ⟨"S4", "I4", 4⟩, ⟨"S5", "I5", 5⟩]
        (.success [⟨"cannot set quantity", 2⟩])).errors = 1 := by
  refine ⟨fun st chunk ue => ⟨rfl, rfl⟩, by decide, by decide⟩

/-- C4 counterexample: a chunk of 2 whose single row error references index
0.  The rows with no error at their index are exactly row 1 (`"B"`), yet
the changed-rows list records row 0 (`"A"`): the source records the
positional prefix `chunk.slice(0, n - k)`, not the error-free rows. -/
theorem changedRows_positional_prefix_cex :
    (processChunk ⟨0, 0, [], []⟩ [⟨"A", "I1", 1⟩, ⟨"B", "I2", 2⟩]
        (.success [⟨"invalid quantity", 0⟩])).changedRows = [⟨"A", "I1", 1⟩] ∧
    (processChunk ⟨0, 0, [], []⟩ [⟨"A", "I1", 1⟩, ⟨"B", "I2", 2⟩]
        (.success [⟨"invalid quantity", 0⟩])).changedRows ≠ [⟨"B", "I2", 2⟩] := by
  decide

/-- C4 (amended): a call-level-successful chunk of `n` items with `k` row
errors appends to the changed-rows list exactly the first `n - k` rows of
the chunk, in chunk order — the row at position `i` is recorded iff
`i < n - k`, regardless of which indices the errors reference. -/
theorem processChunk_changedRows_take (st : Pass1State)
    (chunk : List Candidate) (ue : List UserError) :
    (processChunk st chunk (.success ue)).changedRows
      = st.changedRows ++ (chunk.take (chunk.length - ue.length)).map toChangedRow ∧
    ∀ i : Nat,
      ((chunk.take (chunk.length - ue.length)).map toChangedRow).get? i
        = if i < chunk.length - ue.length then (chunk.get? i).map toChangedRow
          else none := by
  refine ⟨rfl, fun i => ?_⟩
  rw [List.get?_map]
  by_cases h : i < chunk.length - ue.length
  · rw [List.get?_take h, if_pos h]
  · rw [if_neg h]
    have hlen : (chunk.take (chunk.length - ue.length)).length ≤ i := by
      rw [List.length_take]
      omega
    rw [List.get?_eq_none.mpr hlen]
    rfl

/-! ## Flagged set and recovery pass (C6, C3) -/

theorem containsStr_iff (l : List String) (a : String) :
    containsStr l a = true ↔ a ∈ l := by
  induction l with
  | nil => simp [containsStr]
  | cons x rest ih =>
    by_cases h : x = a
    · simp [containsStr, h]
    · have h' : ¬a = x := fun ha => h ha.symm
      simp [containsStr, h, h', ih]

theorem mem_setAdd (s : List String) (x a : String) :
    a ∈ setAdd s x ↔ a ∈ s ∨ a = x := by
  unfold setAdd
  split
  · rename_i h
    have hx : x ∈ s := (containsStr_iff s x).mp h
    constructor
    · exact Or.inl
    · rintro (hs | rfl)
      · exact hs
      · exact hx
  · simp

theorem nodup_setAdd (s : List String) (x : String) (h : s.Nodup) :
    (setAdd s x).Nodup := by
  unfold setAdd
  split
  · exact h
  · rename_i hc
    have hx : x ∉ s := fun hm => hc ((containsStr_iff s x).mpr hm)
    rw [List.nodup_append]
    refine ⟨h, List.nodup_singleton x, ?_⟩
    intro a ha hb
    simp at hb
    subst hb
    exact hx ha

theorem mem_foldl_setAdd (l : List String) :
    ∀ (s : List String) (a : String),
      a ∈ l.foldl setAdd s ↔ a ∈ s ∨ a ∈ l := by
  induction l with
  | nil => intro s a; simp
  | cons x rest ih =>
    intro s a
    show a ∈ rest.foldl setAdd (setAdd s x) ↔ _
    rw [ih (setAdd s x) a, mem_setAdd]
    simp only [List.mem_cons]
    tauto

theorem nodup_foldl_setAdd (l : List String) :
    ∀ s : List String, s.Nodup → (l.foldl setAdd s).Nodup := by
  induction l with
  | nil => intro s hs; exact hs
  | cons x rest ih =>
    intro s hs
    exact ih (setAdd s x) (nodup_setAdd s x hs)

theorem processChunk_notStocked (st : Pass1State) (chunk : List Candidate)
    (res : CallResult) :
    (processChunk st chunk res).notStocked
      = (flaggedOfCall chunk res).foldl setAdd st.notStocked := by
  cases res <;> rfl

theorem fold_notStocked (env : Nat → CallResult)
    (l : List (Nat × List Candidate)) :
    ∀ st : Pass1State,
      (l.foldl (fun s p => processChunk s p.2 (env p.1)) st).notStocked
        = ((l.map fun p => flaggedOfCall p.2 (env p.1)).flatten).foldl
            setAdd st.notStocked := by
  induction l with
  | nil => intro st; rfl
  | cons p rest ih =>
    intro st
    show (rest.foldl _ (processChunk st p.2 (env p.1))).notStocked = _
    rw [ih (processChunk st p.2 (env p.1)), processChunk_notStocked]
    simp [List.foldl_append]

theorem runPass1_notStocked (env : Nat → CallResult) (batch : Nat)
    (ws : List Candidate) :
    (runPass1 env batch ws).notStocked
      = (flaggedOccurrences env batch ws).foldl setAdd [] := by
  unfold runPass1 flaggedOccurrences
  exact fold_notStocked env _ _

/-- C6: for every environment of call outcomes, the run issues exactly one
activation call per distinct flagged inventory item id (the activation list
has no duplicates and contains precisely the ids flagged by
not-stocked-at-location row errors), the retry write is scoped to exactly
the work items with an activated-set id, and at most one recovery pass runs
— even when the environment reports the same error again during the retry. -/
theorem recovery_at_most_once (env : Nat → CallResult) (batch : Nat)
    (ws : List Candidate) :
    (runAll env batch ws).activationCalls.Nodup ∧
    (∀ id, id ∈ (runAll env batch ws).activationCalls
        ↔ id ∈ flaggedOccurrences env batch ws) ∧
    (runAll env batch ws).retryItems
      = retryOf ws (runAll env batch ws).activationCalls ∧
    (runAll env batch ws).recoveryPasses ≤ 1 := by
  have hns := runPass1_notStocked env batch ws
  have hnd : (runPass1 env batch ws).notStocked.Nodup := by
    rw [hns]
    exact nodup_foldl_setAdd _ [] List.nodup_nil
  have hmem : ∀ id, id ∈ (runPass1 env batch ws).notStocked
      ↔ id ∈ flaggedOccurrences env batch ws := by
    intro id
    rw [hns]
    simpa using mem_foldl_setAdd (flaggedOccurrences env batch ws) [] id
  have hrun : runAll env batch ws =
      if (runPass1 env batch ws).notStocked.isEmpty then
        ⟨(runPass1 env batch ws).updated, (runPass1 env batch ws).errors,
          (runPass1 env batch ws).changedRows, [], [], 0⟩
      else
        ⟨(runRetry env ((chunksOf batch ws).length) batch
            (retryOf ws (runPass1 env batch ws).notStocked)
            ⟨(runPass1 env batch ws).updated, (runPass1 env batch ws).errors,
              (runPass1 env batch ws).changedRows⟩).updated,
          (runRetry env ((chunksOf batch ws).length) batch
            (retryOf ws (runPass1 env batch ws).notStocked)
            ⟨(runPass1 env batch ws).updated, (runPass1 env batch ws).errors,
              (runPass1 env batch ws).changedRows⟩).errors,
          (runRetry env ((chunksOf batch ws).length) batch
            (retryOf ws (runPass1 env batch ws).notStocked)
            ⟨(runPass1 env batch ws).updated, (runPass1 env batch ws).errors,
              (runPass1 env batch ws).changedRows⟩).changedRows,
          (runPass1 env batch ws).notStocked,
          retryOf ws (runPass1 env batch ws).notStocked, 1⟩ := rfl
  by_cases h : (runPass1 env batch ws).notStocked.isEmpty
  · have hnil : (runPass1 env batch ws).notStocked = [] := List.isEmpty_iff.mp h
    rw [hrun, if_pos h]
    refine ⟨List.nodup_nil, fun id => ?_, ?_, ?_⟩
    · show id ∈ ([] : List String) ↔ _
      rw [hnil] at hmem
      exact hmem id
    · show ([] : List Candidate) = retryOf ws []
      simp [retryOf, containsStr]
    · show (0 : Nat) ≤ 1
      omega
  · rw [hrun, if_neg h]
    exact ⟨hnd, hmem, rfl, show (1 : Nat) ≤ 1 from le_refl 1⟩

/-- C3 counterexample: an activation environment in which the connect call
for item `I1` fails hard (not ok, status 500, so `connectInventory`
throws and the caller only logs), yet the retry list still contains the
work item for `I1`: the retry filter uses only `notStockedSet` membership,
never the activation outcome. -/
theorem retry_includes_failed_activation :
    connectOK ⟨false, 500⟩ = false ∧
    retryOf [⟨"SKU1", "I1", 5⟩] ["I1"] = [⟨"SKU1", "I1", 5⟩] := by
  decide

/-- C3 (amended): the retry bulk write is restricted to exactly the work
items whose inventory item id was flagged not-stocked in pass 1 — a work
item is retried iff its id is in the flagged set, independently of whether
its activation call succeeded or failed. -/
theorem retryOf_scope (ws : List Candidate) (ns : List String)
    (x : Candidate) :
    x ∈ retryOf ws ns ↔ x ∈ ws ∧ x.inventory_item_id ∈ ns := by
  simp [retryOf, List.mem_filter, containsStr_iff]

/-! ## Tier order and manual-map substitution (C7) -/

/-- C7: per feed row the tiers are attempted in order exact → mapped →
normalized, the first success winning; once tier 1 fails and a manual
mapping exists, the mapped SKU replaces the original for the rest of the
pipeline — the tier-2 lookup and any resulting work item use the mapped
SKU, and on a tier-2 miss the normalized stage runs on the mapped SKU
(tier 3 normalizes the mapped SKU, and its work item carries it too). -/
theorem matchRow_tier_order :
    (∀ (ex : List (String × String)) (nm : List (String × List String))
        (skuMap : List (String × String)) (mode sku : String) (qty : Int),
        lookupStr ex sku ≠ "" →
        matchRow ex nm skuMap mode sku qty
          = RowOutcome.cand ⟨sku, lookupStr ex sku, qty⟩ 1 0 0) ∧
    (∀ (ex : List (String × String)) (nm : List (String × List String))
        (skuMap : List (String × String)) (mode sku : String) (qty : Int),
        lookupStr ex sku = "" → skuMap ≠ [] →
        lookupStr skuMap sku ≠ "" →
        lookupStr ex (lookupStr skuMap sku) ≠ "" →
        matchRow ex nm skuMap mode sku qty
          = RowOutcome.cand
              ⟨lookupStr skuMap sku, lookupStr ex (lookupStr skuMap sku), qty⟩
              1 1 0) ∧
    (∀ (ex : List (String × String)) (nm : List (String × List String))
        (skuMap : List (String × String)) (mode sku : String) (qty : Int),
        lookupStr ex sku = "" → skuMap ≠ [] →
        lookupStr skuMap sku ≠ "" →
        lookupStr ex (lookupStr skuMap sku) = "" →
        matchRow ex nm skuMap mode sku qty
          = normalizedStage nm skuMap mode sku (lookupStr skuMap sku) qty) ∧
    (∀ (nm : List (String × List String)) (skuMap : List (String × String))
        (mode feedSku target : String) (qty : Int),
        mode ≠ "exact" →
        (lookupList nm (normalizeSkuText target)).length = 1 →
        normalizedStage nm skuMap mode feedSku target qty
          = RowOutcome.cand
              ⟨target, (lookupList nm (normalizeSkuText target)).getD 0 "", qty⟩
              0 0 1) := by
  refine ⟨?_, ?_, ?_, ?_⟩
  · intro ex nm skuMap mode sku qty h1
    unfold matchRow
    rw [if_pos h1]
    rfl
  · intro ex nm skuMap mode sku qty h1 h2 h3 h4
    unfold matchRow
    rw [if_neg (fun hc => hc h1), if_pos ⟨h2, h3⟩, if_pos h4]
    rfl
  · intro ex nm skuMap mode sku qty h1 h2 h3 h4
    unfold matchRow
    rw [if_neg (fun hc => hc h1), if_pos ⟨h2, h3⟩,
      if_neg (fun hc => hc h4)]
  · intro nm skuMap mode feedSku target qty hmode hlen
    unfold normalizedStage
    rw [if_pos hmode, if_pos hlen]
    rfl

/-- C7 witness: concrete instances of the four tier facts — a tier-1 hit, a
tier-2 hit through the map `OLD → NEW`, a tier-2 miss falling into the
normalized stage with the MAPPED SKU as input, and a unique normalized hit
whose work item carries the mapped SKU. -/
theorem matchRow_tier_order_witness :
    matchRow [("A", "I1")] [] [] "normalize" "A" 5
      = RowOutcome.cand ⟨"A", "I1", 5⟩ 1 0 0 ∧
    matchRow [("NEW", "I2")] [] [("OLD", "NEW")] "normalize" "OLD" 3
      = RowOutcome.cand ⟨"NEW", "I2", 3⟩ 1 1 0 ∧
    matchRow [] [("NEW", ["I9"])] [("OLD", "NEW")] "normalize" "OLD" 7
      = normalizedStage [("NEW", ["I9"])] [("OLD", "NEW")] "normalize"
          "OLD" "NEW" 7 ∧
    normalizedStage [("NEW", ["I9"])] [("OLD", "NEW")] "normalize" "OLD"
        "NEW" 7
      = RowOutcome.cand ⟨"NEW", "I9", 7⟩ 0 0 1 := by
  refine ⟨?_, ?_, ?_, ?_⟩
  · exact matchRow_tier_order.1 [("A", "I1")] [] [] "normalize" "A" 5
      (by decide)
  · exact matchRow_tier_order.2.1 [("NEW", "I2")] [] [("OLD", "NEW")]
      "normalize" "OLD" 3 (by decide) (by decide) (by decide) (by decide)
  · exact matchRow_tier_order.2.2.1 [] [("NEW", ["I9"])] [("OLD", "NEW")]
      "normalize" "OLD" 7 (by decide) (by decide) (by decide) (by decide)
  · exact matchRow_tier_order.2.2.2 [("NEW", ["I9"])] [("OLD", "NEW")]
      "normalize" "OLD" "NEW" 7 (by decide) (by decide)
